import Mathlib

/-! # Paging objects of the Spotify client (`page.go`)

A shallow embedding of `page.go`: the record `basePage`, the nine page types
that embed it, and `Client.getPage`, which GETs a URL and hands the response
body to `json.NewDecoder(resp.Body).Decode(page)`.

`page.go` itself is four statements of control flow; everything it promises
about the decoded page is decided by the `encoding/json` decoder acting on the
field tags of `basePage` and of the page types.  The decoder is therefore
embedded too, for exactly these types, after `encoding/json/decode.go`
(`unmarshal`, `value`, `object`, `array`, `literalStore`) and
`encoding/json/encode.go` (`Marshal`), at the level of the JSON value that the
scanner delimits in the body.
-/

set_option autoImplicit false

namespace Spotify

/-! ## Go strings

A Go `string` is a sequence of bytes, not of characters.  A JSON string is a
sequence of Unicode characters; the decoder stores its UTF-8 encoding, and the
encoder reads a Go string rune by rune (`utf8.DecodeRuneInString`), replacing
every byte that does not start a valid encoding by U+FFFD. -/

abbrev Byte := Fin 256

abbrev GoString := List Byte

/-- The byte with value `n % 256`. -/
def byte (n : Nat) : Byte := ⟨n % 256, Nat.mod_lt _ (by decide)⟩

/-- The replacement character `utf8.RuneError`. -/
def runeError : Nat := 0xFFFD

/-- The UTF-8 encoding of the code point `r` (`utf8.AppendRune`): surrogates and
values above U+10FFFF are encoded as U+FFFD. -/
def encodeRune (r : Nat) : GoString :=
  if r < 0x80 then [byte r]
  else if r < 0x800 then [byte (0xC0 + r / 64), byte (0x80 + r % 64)]
  else if (0xD800 ≤ r ∧ r ≤ 0xDFFF) ∨ 0x10FFFF < r then [byte 0xEF, byte 0xBF, byte 0xBD]
  else if r < 0x10000 then
    [byte (0xE0 + r / 4096), byte (0x80 + r / 64 % 64), byte (0x80 + r % 64)]
  else
    [byte (0xF0 + r / 262144), byte (0x80 + r / 4096 % 64), byte (0x80 + r / 64 % 64),
      byte (0x80 + r % 64)]

/-- A continuation byte, `0x80 ≤ b ≤ 0xBF`. -/
def isCont (b : Byte) : Bool := decide (0x80 ≤ b.val) && decide (b.val ≤ 0xBF)

/-- The range accepted for the second byte after the leading byte `b0`
(`utf8.acceptRanges`): it excludes overlong encodings, surrogates and values
above U+10FFFF. -/
def acceptSecond (b0 b1 : Byte) : Bool :=
  if b0.val = 0xE0 then decide (0xA0 ≤ b1.val) && decide (b1.val ≤ 0xBF)
  else if b0.val = 0xED then decide (0x80 ≤ b1.val) && decide (b1.val ≤ 0x9F)
  else if b0.val = 0xF0 then decide (0x90 ≤ b1.val) && decide (b1.val ≤ 0xBF)
  else if b0.val = 0xF4 then decide (0x80 ≤ b1.val) && decide (b1.val ≤ 0x8F)
  else isCont b1

/-- The first rune of a byte string and its width (`utf8.DecodeRune`): an
invalid or truncated encoding gives `(RuneError, 1)`, the empty string
`(RuneError, 0)`. -/
def decodeRune : GoString → Nat × Nat
  | [] => (runeError, 0)
  | b0 :: rest =>
    if b0.val < 0x80 then (b0.val, 1)
    else if 0xC2 ≤ b0.val ∧ b0.val ≤ 0xDF then
      match rest with
      | b1 :: _ =>
        if isCont b1 then ((b0.val - 0xC0) * 64 + (b1.val - 0x80), 2) else (runeError, 1)
      | _ => (runeError, 1)
    else if 0xE0 ≤ b0.val ∧ b0.val ≤ 0xEF then
      match rest with
      | b1 :: b2 :: _ =>
        if acceptSecond b0 b1 && isCont b2 then
          ((b0.val - 0xE0) * 4096 + (b1.val - 0x80) * 64 + (b2.val - 0x80), 3)
        else (runeError, 1)
      | _ => (runeError, 1)
    else if 0xF0 ≤ b0.val ∧ b0.val ≤ 0xF4 then
      match rest with
      | b1 :: b2 :: b3 :: _ =>
        if acceptSecond b0 b1 && isCont b2 && isCont b3 then
          ((b0.val - 0xF0) * 262144 + (b1.val - 0x80) * 4096 + (b2.val - 0x80) * 64
            + (b3.val - 0x80), 4)
        else (runeError, 1)
      | _ => (runeError, 1)
    else (runeError, 1)

/-- The runes of a Go string, read the way the encoder's string loop reads them:
`fuel` bounds the number of runes, and every step consumes at least one byte. -/
def runesAux : Nat → GoString → List Char
  | 0, _ => []
  | _, [] => []
  | fuel + 1, b :: bs =>
    Char.ofNat (decodeRune (b :: bs)).1 ::
      runesAux fuel ((b :: bs).drop (decodeRune (b :: bs)).2)

/-- The text a Go string denotes once coerced to valid UTF-8. -/
def toValidText (s : GoString) : String := String.mk (runesAux s.length s)

/-- The UTF-8 encoding of a list of characters. -/
def utf8Chars : List Char → GoString
  | [] => []
  | c :: cs => encodeRune c.toNat ++ utf8Chars cs

/-- The Go string holding a text. -/
def utf8 (s : String) : GoString := utf8Chars s.data


/-! ## JSON values, Go integers and errors -/

/-- A JSON value, as the scanner delimits it.  A number keeps the one distinction
the decoder makes for an integer destination: a literal with no fraction and no
exponent (`int`) or any other literal (`real`, kept as written).  A string is its
unquoted text; an object keeps its members in order, repeated keys included. -/
inductive Json where
  | null
  | bool (b : Bool)
  | int (n : Int)
  | real (lit : String)
  | str (s : String)
  | arr (xs : List Json)
  | obj (kvs : List (String × Json))

/-- Smallest value of Go's `int` (64-bit platforms). -/
abbrev intMin : Int := -9223372036854775808

/-- Largest value of Go's `int` (64-bit platforms). -/
abbrev intMax : Int := 9223372036854775807

/-- Go's `int`. -/
abbrev GoInt := { n : Int // intMin ≤ n ∧ n ≤ intMax }

/-- A non-nil Go `error`, by origin: returned by `http.Client.Get`; returned by the
decoder before anything is stored (`*json.SyntaxError`, `io.EOF`,
`io.ErrUnexpectedEOF`, a failed read); `*json.UnmarshalTypeError` with its `Value`
and the JSON name of the field; an error raised while decoding an item. -/
inductive GoError where
  | transport (msg : String)
  | malformed (msg : String)
  | unmarshalType (value : String) (field : String)
  | item (msg : String)
  deriving DecidableEq, Repr

/-! ## The page types (page.go:32-102) -/

/-- The record `basePage` (page.go:32-48). -/
structure basePage where
  Endpoint : GoString
  Limit : GoInt
  Offset : GoInt
  Total : GoInt
  Next : GoString
  Previous : GoString
  deriving DecidableEq

/-- A Go slice value: `none` is the nil slice.  Storage between length and
capacity is not part of the value and is not represented. -/
abbrev GoSlice (α : Type) := Option (List α)

/-- A page type: `basePage` embedded, and one slice of items tagged
`json:"items"` (page.go:51-102).  The nine page types differ only in the item
type and in the Go name of the slice field. -/
structure Page (Item : Type) extends basePage where
  Items : GoSlice Item

/-- The item types, declared elsewhere in the package. -/
structure ItemTypes where
  FullArtist : Type
  SimpleAlbum : Type
  SavedAlbum : Type
  SimplePlaylist : Type
  SimpleTrack : Type
  FullTrack : Type
  SavedTrack : Type
  PlaylistTrack : Type
  Category : Type

/-- The nine page types of page.go. -/
inductive PageVariant where
  | FullArtistPage
  | SimpleAlbumPage
  | SavedAlbumPage
  | SimplePlaylistPage
  | SimpleTrackPage
  | FullTrackPage
  | SavedTrackPage
  | PlaylistTrackPage
  | CategoryPage
  deriving DecidableEq, Repr

/-- The Go name of the slice field of each page type. -/
def PageVariant.itemsField : PageVariant → String
  | .FullArtistPage => "Artists"
  | .SimpleAlbumPage => "Albums"
  | .SavedAlbumPage => "Albums"
  | .SimplePlaylistPage => "Playlists"
  | .SimpleTrackPage => "Tracks"
  | .FullTrackPage => "Tracks"
  | .SavedTrackPage => "Tracks"
  | .PlaylistTrackPage => "Tracks"
  | .CategoryPage => "Categories"

/-- The item type of each page type. -/
def PageVariant.Item (T : ItemTypes) : PageVariant → Type
  | .FullArtistPage => T.FullArtist
  | .SimpleAlbumPage => T.SimpleAlbum
  | .SavedAlbumPage => T.SavedAlbum
  | .SimplePlaylistPage => T.SimplePlaylist
  | .SimpleTrackPage => T.SimpleTrack
  | .FullTrackPage => T.FullTrack
  | .SavedTrackPage => T.SavedTrack
  | .PlaylistTrackPage => T.PlaylistTrack
  | .CategoryPage => T.Category

/-- The page type `v`. -/
abbrev PageOf (T : ItemTypes) (v : PageVariant) : Type := Page (v.Item T)

/-- The zero `int`. -/
def zeroInt : GoInt := ⟨0, by decide⟩

/-- The empty (zero) value of a page type: what `var p FullArtistPage` declares. -/
def emptyPage {Item : Type} : Page Item :=
  { Endpoint := [], Limit := zeroInt, Offset := zeroInt, Total := zeroInt,
    Next := [], Previous := [], Items := none }

/-- How decoding one value can go wrong: `soft` is an error the decoder records
with `saveError` and carries on from; `hard` is an error that makes `value` return
at once. -/
inductive Fault where
  | soft (e : GoError)
  | hard (e : GoError)
  deriving DecidableEq, Repr

/-- What the JSON package does with one item of type `α`: its zero value, the
effect of decoding a JSON value into an existing item (the item afterwards, and
the fault if any), and its encoding.  The item types are declared outside
page.go, so this is a parameter. -/
structure ItemCodec (α : Type) where
  zero : α
  decode : Json → α → α × Option Fault
  encode : α → Json

/-! ## Field lookup (`decode.go`, `object`; `fold.go`) -/

/-- The fields the JSON package sees in a page type, in index order: the six
promoted fields of the embedded `basePage`, then the slice. -/
inductive Field where
  | href
  | limit
  | offset
  | total
  | next
  | previous
  | items
  deriving DecidableEq, Repr

/-- The JSON name of a field: its `json:"..."` tag (page.go:35-47 and 53). -/
def Field.jsonName : Field → String
  | .href => "href"
  | .limit => "limit"
  | .offset => "offset"
  | .total => "total"
  | .next => "next"
  | .previous => "previous"
  | .items => "items"

/-- All fields, in index order. -/
def Field.all : List Field :=
  [.href, .limit, .offset, .total, .next, .previous, .items]

/-- Case folding of one character, as far as it can reach an ASCII letter: an
upper-case ASCII letter folds to its lower-case letter, and so do the two other
characters of Unicode's simple folding that reach ASCII, the Kelvin sign
U+212A (to `k`) and the long s U+017F (to `s`). -/
def foldRune (c : Char) : Char :=
  if 65 ≤ c.toNat ∧ c.toNat ≤ 90 then Char.ofNat (c.toNat + 32)
  else if c.toNat = 0x212A then Char.ofNat 107
  else if c.toNat = 0x17F then Char.ofNat 115
  else c

/-- A key with its characters folded. -/
def foldName (s : String) : List Char := s.data.map foldRune

/-- The field a key of the JSON object is stored into: the field whose name is
the key exactly, else the first field whose name equals the key under case
folding, else none (the member is skipped). -/
def fieldOf (key : String) : Option Field :=
  match Field.all.find? (fun f => f.jsonName == key) with
  | some f => some f
  | none => Field.all.find? (fun f => foldName f.jsonName == foldName key)

/-! ## Storing one value (`decode.go`, `literalStore`, `array`) -/

/-- The decoder's `saveError`: only the first recorded error is kept. -/
def saveError (saved : Option GoError) (e : GoError) : Option GoError :=
  match saved with
  | some s => some s
  | none => some e

/-- The `UnmarshalTypeError` for a JSON value of kind `value` met at field `f`. -/
def typeError (value : String) (f : Field) : GoError :=
  .unmarshalType value f.jsonName

/-- Store a JSON value into a `string` field: `null` leaves the field as it is, a
string is stored, anything else records a type error and leaves the field. -/
def storeString (f : Field) (v : Json) (cur : GoString) (saved : Option GoError) :
    GoString × Option GoError :=
  match v with
  | .null => (cur, saved)
  | .str s => (utf8 s, saved)
  | .bool _ => (cur, saveError saved (typeError "bool" f))
  | .int _ => (cur, saveError saved (typeError "number" f))
  | .real _ => (cur, saveError saved (typeError "number" f))
  | .arr _ => (cur, saveError saved (typeError "array" f))
  | .obj _ => (cur, saveError saved (typeError "object" f))

/-- Store a JSON value into an `int` field: `null` leaves the field as it is, an
integer literal that `strconv.ParseInt` accepts and that fits is stored, anything
else records a type error and leaves the field; for a number the error names the
literal (`"number " + literal`). -/
def storeInt (f : Field) (v : Json) (cur : GoInt) (saved : Option GoError) :
    GoInt × Option GoError :=
  match v with
  | .null => (cur, saved)
  | .int n =>
    if h : intMin ≤ n ∧ n ≤ intMax then (⟨n, h⟩, saved)
    else (cur, saveError saved (typeError ("number " ++ toString n) f))
  | .real lit => (cur, saveError saved (typeError ("number " ++ lit) f))
  | .bool _ => (cur, saveError saved (typeError "bool" f))
  | .str _ => (cur, saveError saved (typeError "string" f))
  | .arr _ => (cur, saveError saved (typeError "array" f))
  | .obj _ => (cur, saveError saved (typeError "object" f))

/-- The state of the decoder between two members: the destination so far, the
recorded error, and the error that stopped the decoding, if one did. -/
structure Step (Item : Type) where
  page : Page Item
  saved : Option GoError
  abort : Option GoError

/-- Decode the elements of a JSON array into a slice whose current elements are
`old`: element `i` is decoded into the existing element `i`, or into a zero item
past the end; the slice ends up as long as the array.  Returns the elements, the
recorded error and the stopping error.  When an element stops the decoding the
rest of the slice is left as it was. -/
def decodeElems {α : Type} (c : ItemCodec α) :
    List Json → List α → Option GoError → List α × Option GoError × Option GoError
  | [], _, saved => ([], saved, none)
  | j :: js, old, saved =>
    match c.decode j (old.headD c.zero) with
    | (a, none) =>
      let r := decodeElems c js old.tail saved
      (a :: r.1, r.2.1, r.2.2)
    | (a, some (.soft e)) =>
      let r := decodeElems c js old.tail (saveError saved e)
      (a :: r.1, r.2.1, r.2.2)
    | (a, some (.hard e)) => (a :: old.tail, saved, some e)

/-- Store a JSON value into the slice field: `null` makes the slice nil, an array
is decoded element by element, anything else records a type error. -/
def storeItems {α : Type} (c : ItemCodec α) (v : Json) (cur : GoSlice α)
    (saved : Option GoError) : GoSlice α × Option GoError × Option GoError :=
  match v with
  | .null => (none, saved, none)
  | .arr xs =>
    let r := decodeElems c xs (cur.getD []) saved
    (some r.1, r.2.1, r.2.2)
  | .bool _ => (cur, saveError saved (typeError "bool" .items), none)
  | .int _ => (cur, saveError saved (typeError "number" .items), none)
  | .real _ => (cur, saveError saved (typeError "number" .items), none)
  | .str _ => (cur, saveError saved (typeError "string" .items), none)
  | .obj _ => (cur, saveError saved (typeError "object" .items), none)

/-- Store the value of one member into the field its key selected. -/
def store {α : Type} (c : ItemCodec α) (f : Field) (v : Json) (p : Page α)
    (saved : Option GoError) : Step α :=
  match f with
  | .href =>
    let r := storeString f v p.Endpoint saved
    { page := { p with Endpoint := r.1 }, saved := r.2, abort := none }
  | .limit =>
    let r := storeInt f v p.Limit saved
    { page := { p with Limit := r.1 }, saved := r.2, abort := none }
  | .offset =>
    let r := storeInt f v p.Offset saved
    { page := { p with Offset := r.1 }, saved := r.2, abort := none }
  | .total =>
    let r := storeInt f v p.Total saved
    { page := { p with Total := r.1 }, saved := r.2, abort := none }
  | .next =>
    let r := storeString f v p.Next saved
    { page := { p with Next := r.1 }, saved := r.2, abort := none }
  | .previous =>
    let r := storeString f v p.Previous saved
    { page := { p with Previous := r.1 }, saved := r.2, abort := none }
  | .items =>
    let r := storeItems c v p.Items saved
    { page := { p with Items := r.1 }, saved := r.2.1, abort := r.2.2 }

/-! ## Decoding a value into a page (`decode.go`, `object`, `unmarshal`) -/

/-- Decode the members of a JSON object, in order, into a page: a member whose
key selects no field is skipped, a stopping error ends the loop. -/
def decodeObject {α : Type} (c : ItemCodec α) :
    List (String × Json) → Page α → Option GoError → Step α
  | [], p, saved => { page := p, saved := saved, abort := none }
  | (k, v) :: rest, p, saved =>
    match fieldOf k with
    | none => decodeObject c rest p saved
    | some f =>
      match (store c f v p saved).abort with
      | some e =>
        { page := (store c f v p saved).page, saved := (store c f v p saved).saved,
          abort := some e }
      | none =>
        decodeObject c rest (store c f v p saved).page (store c f v p saved).saved

/-- The decoder's `unmarshal` with a pointer to a page as destination: the page
afterwards and the error returned (`none` is Go's nil).  An object is decoded
member by member and the stopping error, else the recorded error, is returned.
`null` stores nothing and is no error.  Any other value stores nothing and is a
type error. -/
def unmarshal {α : Type} (c : ItemCodec α) (j : Json) (p : Page α) :
    Page α × Option GoError :=
  match j with
  | .obj kvs =>
    let r := decodeObject c kvs p none
    (r.page, match r.abort with
      | some e => some e
      | none => r.saved)
  | .null => (p, none)
  | .bool _ => (p, some (.unmarshalType "bool" ""))
  | .int _ => (p, some (.unmarshalType "number" ""))
  | .real _ => (p, some (.unmarshalType "number" ""))
  | .str _ => (p, some (.unmarshalType "string" ""))
  | .arr _ => (p, some (.unmarshalType "array" ""))

/-- A response body as the decoder's `readValue` sees it: either no complete JSON
value can be read from it (empty, malformed or truncated text, a failing read),
with the error that `Decode` then returns, or it starts with one complete JSON
value, which is the only part of the body that is decoded. -/
inductive Body where
  | malformed (e : GoError)
  | value (j : Json)

/-- The call `json.NewDecoder(body).Decode(&page)`. -/
def jsonDecode {α : Type} (c : ItemCodec α) (b : Body) (p : Page α) :
    Page α × Option GoError :=
  match b with
  | .malformed e => (p, some e)
  | .value j => unmarshal c j p

/-! ## Client.getPage (page.go:105-112)

`getPage` acts on the world only through its collaborators: the transport's `Get`,
and the two methods of the response body, which the decoder reads and the deferred
call closes.  Each of them is a function on the state of the world, of a type `σ`
that `getPage` knows nothing about, so whatever a call of `getPage` does to the
world is done by the collaborators it calls, in the order it calls them. -/

/-- The body of a response as an `io.ReadCloser`: `Read` is the decoder reading the
stream (what it finds there, and the world afterwards), `Close` closes the stream
(the error `Close` returns is dropped by the `defer`). -/
structure ReadCloser (σ : Type) where
  Read : σ → Body × σ
  Close : σ → σ

/-- An `*http.Response`: `getPage` uses its `Body` and nothing else. -/
structure Response (σ : Type) where
  StatusCode : Nat
  Header : List (String × String)
  Body : ReadCloser σ

/-- The transport: `Get` acts on the world and returns a response whose body is
open, or an error and no body to close. -/
structure HTTPClient (σ : Type) where
  Get : String → σ → Except GoError (Response σ) × σ

/-- The receiver of `getPage`; only its field `http` is used. -/
structure Client (σ : Type) where
  http : HTTPClient σ

/-- The outcome of a call of `getPage`: the error returned, the destination
afterwards, and the world afterwards. -/
structure Outcome (Item : Type) (σ : Type) where
  err : Option GoError
  page : Page Item
  world : σ

/-- The call `json.NewDecoder(body).Decode(page)` on a body stream: the decoder
reads the stream and decodes what it read into the destination. -/
def decodeFrom {α σ : Type} (codec : ItemCodec α) (body : ReadCloser σ) (page : Page α)
    (s : σ) : (Page α × Option GoError) × σ :=
  (jsonDecode codec (body.Read s).1 page, (body.Read s).2)

/-- The method `getPage` (page.go:105-112):
`resp, err := c.http.Get(url)`; on an error return it; otherwise decode
`resp.Body` into `page`, and close the body (deferred) when the decode has
returned. -/
def getPage {α σ : Type} (c : Client σ) (codec : ItemCodec α) (url : String)
    (page : Page α) (s : σ) : Outcome α σ :=
  match c.http.Get url s with
  | (.error e, s1) => { err := some e, page := page, world := s1 }
  | (.ok resp, s1) =>
    let r := decodeFrom codec resp.Body page s1
    { err := r.1.2, page := r.1.1, world := resp.Body.Close r.2 }

/-! ## A transport that records the calls made on it -/

/-- A call received by a collaborator: a `Get` for a URL, which opened a body or
failed; the decoder reading the body with the given number; `Close` on the body
with the given number. -/
inductive Event where
  | get (url : String) (bodyOpened : Bool)
  | read (body : Nat)
  | close (body : Nat)
  deriving DecidableEq, Repr

/-- What the remote end answers to a request: the status code, the headers and
the body. -/
structure Reply where
  StatusCode : Nat
  Header : List (String × String)
  Body : Body

/-- The behaviour of the network: the answer or the failure for a URL, which may
depend on the calls made so far. -/
abbrev Exchange := List Event → String → Except GoError Reply

/-- The body stream of a recording transport: each `Read` and each `Close` appends
itself to the log, under the number of the body. -/
def recordedBody (id : Nat) (b : Body) : ReadCloser (List Event) :=
  { Read := fun log => (b, log ++ [.read id]),
    Close := fun log => log ++ [.close id] }

/-- The client whose transport behaves as `x` and records every call: each `Get`
appends itself to the log, and the body it opens is numbered by the position of
that `Get` in the log. -/
def recorder (x : Exchange) : Client (List Event) :=
  { http :=
      { Get := fun url log =>
          match x log url with
          | .error e => (.error e, log ++ [.get url false])
          | .ok r =>
            (.ok { StatusCode := r.StatusCode, Header := r.Header,
                   Body := recordedBody log.length r.Body },
             log ++ [.get url true]) } }

/-! ## Serialising a page (`encode.go`) -/

/-- The JSON value `json.Marshal` writes for a page: the fields in index order
under their JSON names; a string coerced to valid UTF-8; a nil slice as `null`. -/
def marshal {α : Type} (c : ItemCodec α) (p : Page α) : Json :=
  .obj [("href", .str (toValidText p.Endpoint)),
        ("limit", .int p.Limit.val),
        ("offset", .int p.Offset.val),
        ("total", .int p.Total.val),
        ("next", .str (toValidText p.Next)),
        ("previous", .str (toValidText p.Previous)),
        ("items", match p.Items with
          | none => .null
          | some xs => .arr (xs.map c.encode))]

/-- An item codec that keeps the JSON value itself, as `json.RawMessage` does. -/
def rawItem : ItemCodec Json :=
  { zero := .null, decode := fun j _ => (j, none), encode := fun j => j }

/-- Item types that are all raw JSON. -/
def rawTypes : ItemTypes :=
  { FullArtist := Json, SimpleAlbum := Json, SavedAlbum := Json, SimplePlaylist := Json,
    SimpleTrack := Json, FullTrack := Json, SavedTrack := Json, PlaylistTrack := Json,
    Category := Json }

/-! ## Observations on a call of getPage -/

/-- The URL of a `Get` call, if the event is one. -/
def Event.getURL : Event → Option String
  | .get url _ => some url
  | _ => none

/-- Whether the event is a `Get` that opened a body. -/
def Event.opens : Event → Bool
  | .get _ true => true
  | _ => false

/-- Whether the event is a `Close`. -/
def Event.closes : Event → Bool
  | .close _ => true
  | _ => false

/-- Whether the event is the decoder reading a body. -/
def Event.reads : Event → Bool
  | .read _ => true
  | _ => false

/-- The number of response bodies opened in a log. -/
def opened (log : List Event) : Nat := (log.filter Event.opens).length

/-- The number of `Close` calls in a log. -/
def closed (log : List Event) : Nat := (log.filter Event.closes).length

/-- The calls made since the log was `before`. -/
def during (before world : List Event) : List Event := world.drop before.length

/-- Whether a body is a JSON object. -/
def Body.isObject : Body → Bool
  | .value (.obj _) => true
  | _ => false

/-- Whether a body is the JSON value `null`. -/
def Body.isNull : Body → Bool
  | .value .null => true
  | _ => false

/-- A network that answers every URL with status 200 and the given body. -/
def serve (b : Body) : Exchange :=
  fun _ _ => .ok { StatusCode := 200, Header := [], Body := b }

/-- A network that fails every request with the given error. -/
def refuse (e : GoError) : Exchange :=
  fun _ _ => .error e

/-- The body `{"total":5,"limit":"x"}`. -/
def partialBody : Body :=
  .value (.obj [("total", .int 5), ("limit", .str "x")])

/-! ## Well-formed paging objects (the wire format) -/

/-- The content of a paging object of the remote service: `href`, `limit`,
`offset`, `total`, the two links (`none` stands for JSON `null`) and the items. -/
structure Paging where
  href : String
  limit : GoInt
  offset : GoInt
  total : GoInt
  next : Option String
  previous : Option String
  items : List Json

/-- The JSON value of an optional link: a string, or `null`. -/
def linkJson : Option String → Json
  | some s => .str s
  | none => .null

/-- The Go string an optional link is expected to decode to: empty for `null`. -/
def linkText : Option String → GoString
  | some s => utf8 s
  | none => []

/-- The seven members of a paging object, each key once. -/
def Paging.members (w : Paging) : List (String × Json) :=
  [("href", .str w.href), ("limit", .int w.limit.val), ("offset", .int w.offset.val),
   ("total", .int w.total.val), ("next", linkJson w.next), ("previous", linkJson w.previous),
   ("items", .arr w.items)]

/-- The members of a paging object whose links are each left out or `null`. -/
def Paging.membersNoLinks (w : Paging) (nextGiven previousGiven : Bool) :
    List (String × Json) :=
  [("href", .str w.href), ("limit", .int w.limit.val), ("offset", .int w.offset.val),
   ("total", .int w.total.val), ("items", .arr w.items)]
  ++ (if nextGiven then [("next", Json.null)] else [])
  ++ (if previousGiven then [("previous", Json.null)] else [])

/-- Every item of the list decodes into a zero item without a fault. -/
def ItemsDecode {α : Type} (c : ItemCodec α) (xs : List Json) : Prop :=
  ∀ j ∈ xs, (c.decode j c.zero).2 = none

/-- The items a list of JSON values decodes to, in order. -/
def decodedItems {α : Type} (c : ItemCodec α) (xs : List Json) : List α :=
  xs.map (fun j => (c.decode j c.zero).1)

/-- The keys of a list of members. -/
def keys (kvs : List (String × Json)) : List String := kvs.map Prod.fst

/-- Whether a key is exactly one of the seven JSON names. -/
def isPagingKey (k : String) : Bool :=
  Field.all.any (fun f => f.jsonName == k)

/-! ## Sample values -/

/-- The paging object of the example scenario: two artists, `previous` null. -/
def artistsPaging : Paging :=
  { href := "https://api.example/v1/artists?limit=2&offset:0",
    limit := ⟨2, by decide⟩, offset := ⟨0, by decide⟩, total := ⟨5, by decide⟩,
    next := some "https://api.example/v1/artists?limit=2&offset=2",
    previous := none,
    items := [.obj [("name", .str "artist1")], .obj [("name", .str "artist2")]] }

/-- The members of the example scenario in the order of the response. -/
def artistsResponse : List (String × Json) :=
  [("href", .str "https://api.example/v1/artists?limit=2&offset:0"),
   ("items", .arr [.obj [("name", .str "artist1")], .obj [("name", .str "artist2")]]),
   ("limit", .int 2),
   ("next", .str "https://api.example/v1/artists?limit=2&offset=2"),
   ("offset", .int 0),
   ("previous", .null),
   ("total", .int 5)]

/-- A paging object without `next` and with `previous` null, `previous` first. -/
def artistsNoLinks : List (String × Json) :=
  [("previous", .null),
   ("href", .str "https://api.example/v1/artists?limit=2&offset:0"),
   ("limit", .int 2), ("offset", .int 0), ("total", .int 5),
   ("items", .arr [.obj [("name", .str "artist1")], .obj [("name", .str "artist2")]])]

/-- The example scenario with two more members, whose keys select no field. -/
def artistsExtra : List (String × Json) :=
  [("href", .str "https://api.example/v1/artists?limit=2&offset:0"),
   ("cursor", .int 1),
   ("limit", .int 2), ("offset", .int 0), ("total", .int 5),
   ("next", .str "https://api.example/v1/artists?limit=2&offset=2"),
   ("previous", .null),
   ("items", .arr [.obj [("name", .str "artist1")], .obj [("name", .str "artist2")]]),
   ("market", .str "DE")]

/-- A page of two raw items whose strings hold text. -/
def samplePage : Page Json :=
  { Endpoint := utf8 "https://api.example/v1/artists?limit=2&offset=0",
    Limit := ⟨2, by decide⟩, Offset := ⟨0, by decide⟩, Total := ⟨5, by decide⟩,
    Next := utf8 "https://api.example/v1/artists?limit=2&offset=2", Previous := utf8 "",
    Items := some [.obj [("name", .str "artist1")], .obj [("name", .str "artist2")]] }

/-- A page whose `Next` is the single byte 0xFF, which is not valid UTF-8. -/
def badPage : Page Json :=
  { Endpoint := [], Limit := zeroInt, Offset := zeroInt, Total := zeroInt,
    Next := [0xFF], Previous := [], Items := none }

/-! ## UTF-8: decoding what was encoded -/

/-- A number below 256 is the value of its byte. -/
theorem byte_val (n : Nat) (h : n < 256) : (byte n).val = n := by
  simp [byte, Nat.mod_eq_of_lt h]

theorem decodeRune_two (b0 b1 : Byte) (rest : GoString)
    (h0 : 0xC2 ≤ b0.val ∧ b0.val ≤ 0xDF) (h1 : 0x80 ≤ b1.val ∧ b1.val ≤ 0xBF) :
    decodeRune (b0 :: b1 :: rest) = ((b0.val - 0xC0) * 64 + (b1.val - 0x80), 2) := by
  have hc : isCont b1 = true := by simp [isCont, h1.1, h1.2]
  rw [decodeRune, if_neg (by omega), if_pos h0]
  simp [hc]

theorem decodeRune_three (b0 b1 b2 : Byte) (rest : GoString)
    (h0 : 0xE0 ≤ b0.val ∧ b0.val ≤ 0xEF) (h1 : acceptSecond b0 b1 = true)
    (h2 : 0x80 ≤ b2.val ∧ b2.val ≤ 0xBF) :
    decodeRune (b0 :: b1 :: b2 :: rest)
      = ((b0.val - 0xE0) * 4096 + (b1.val - 0x80) * 64 + (b2.val - 0x80), 3) := by
  have hc : isCont b2 = true := by simp [isCont, h2.1, h2.2]
  rw [decodeRune, if_neg (by omega), if_neg (by omega), if_pos h0]
  simp [hc, h1]

theorem decodeRune_four (b0 b1 b2 b3 : Byte) (rest : GoString)
    (h0 : 0xF0 ≤ b0.val ∧ b0.val ≤ 0xF4) (h1 : acceptSecond b0 b1 = true)
    (h2 : 0x80 ≤ b2.val ∧ b2.val ≤ 0xBF) (h3 : 0x80 ≤ b3.val ∧ b3.val ≤ 0xBF) :
    decodeRune (b0 :: b1 :: b2 :: b3 :: rest)
      = ((b0.val - 0xF0) * 262144 + (b1.val - 0x80) * 4096 + (b2.val - 0x80) * 64
          + (b3.val - 0x80), 4) := by
  have hc2 : isCont b2 = true := by simp [isCont, h2.1, h2.2]
  have hc3 : isCont b3 = true := by simp [isCont, h3.1, h3.2]
  rw [decodeRune, if_neg (by omega), if_neg (by omega), if_neg (by omega), if_pos h0]
  simp [hc2, hc3, h1]

/-- Decoding the encoding of a Unicode scalar value gives it back, with its width. -/
theorem decodeRune_encodeRune (n : Nat) (hv : n < 0xD800 ∨ (0xDFFF < n ∧ n < 0x110000))
    (rest : GoString) :
    decodeRune (encodeRune n ++ rest) = (n, (encodeRune n).length) := by
  unfold encodeRune
  by_cases h1 : n < 0x80
  · have e0 : (byte n).val = n := byte_val _ (by omega)
    simp [h1, decodeRune, e0]
  · by_cases h2 : n < 0x800
    · have e0 : (byte (0xC0 + n / 64)).val = 0xC0 + n / 64 := byte_val _ (by omega)
      have e1 : (byte (0x80 + n % 64)).val = 0x80 + n % 64 := byte_val _ (by omega)
      simp only [if_neg h1, if_pos h2, List.cons_append, List.nil_append, List.length_cons,
        List.length_nil]
      rw [decodeRune_two _ _ _ (by omega) (by omega), e0, e1]
      simp only [Prod.mk.injEq, and_true]
      omega
    · have h3 : ¬ ((0xD800 ≤ n ∧ n ≤ 0xDFFF) ∨ 0x10FFFF < n) := by omega
      by_cases h4 : n < 0x10000
      · have e0 : (byte (0xE0 + n / 4096)).val = 0xE0 + n / 4096 := byte_val _ (by omega)
        have e1 : (byte (0x80 + n / 64 % 64)).val = 0x80 + n / 64 % 64 := byte_val _ (by omega)
        have e2 : (byte (0x80 + n % 64)).val = 0x80 + n % 64 := byte_val _ (by omega)
        have ha : acceptSecond (byte (0xE0 + n / 4096)) (byte (0x80 + n / 64 % 64)) = true := by
          simp only [acceptSecond, isCont, e0, e1]
          split_ifs <;> simp <;> omega
        simp only [if_neg h1, if_neg h2, if_neg h3, if_pos h4, List.cons_append,
          List.nil_append, List.length_cons, List.length_nil]
        rw [decodeRune_three _ _ _ _ (by omega) ha (by omega), e0, e1, e2]
        simp only [Prod.mk.injEq, and_true]
        omega
      · have e0 : (byte (0xF0 + n / 262144)).val = 0xF0 + n / 262144 := byte_val _ (by omega)
        have e1 : (byte (0x80 + n / 4096 % 64)).val = 0x80 + n / 4096 % 64 :=
          byte_val _ (by omega)
        have e2 : (byte (0x80 + n / 64 % 64)).val = 0x80 + n / 64 % 64 := byte_val _ (by omega)
        have e3 : (byte (0x80 + n % 64)).val = 0x80 + n % 64 := byte_val _ (by omega)
        have ha : acceptSecond (byte (0xF0 + n / 262144)) (byte (0x80 + n / 4096 % 64))
            = true := by
          simp only [acceptSecond, isCont, e0, e1]
          split_ifs <;> simp <;> omega
        simp only [if_neg h1, if_neg h2, if_neg h3, if_neg h4, List.cons_append,
          List.nil_append, List.length_cons, List.length_nil]
        rw [decodeRune_four _ _ _ _ _ (by omega) ha (by omega) (by omega), e0, e1, e2, e3]
        simp only [Prod.mk.injEq, and_true]
        omega

theorem encodeRune_ne_nil (n : Nat) : encodeRune n ≠ [] := by
  unfold encodeRune
  split_ifs <;> simp

theorem char_valid (c : Char) : c.toNat < 0xD800 ∨ (0xDFFF < c.toNat ∧ c.toNat < 0x110000) :=
  c.valid

/-- The runes of the encoding of a list of characters are those characters. -/
theorem runesAux_utf8Chars (cs : List Char) :
    ∀ fuel, (utf8Chars cs).length ≤ fuel → runesAux fuel (utf8Chars cs) = cs := by
  induction cs with
  | nil => intro fuel _; cases fuel <;> rfl
  | cons c cs ih =>
    intro fuel hf
    have hne := encodeRune_ne_nil c.toNat
    have hdec := fun rest => decodeRune_encodeRune c.toNat (char_valid c) rest
    simp only [utf8Chars] at hf ⊢
    cases he : encodeRune c.toNat with
    | nil => exact absurd he hne
    | cons b bs =>
      rw [he] at hf hdec
      cases fuel with
      | zero => simp at hf
      | succ fuel =>
        have hd := hdec (utf8Chars cs)
        simp only [List.cons_append] at hd hf ⊢
        rw [runesAux, hd]
        simp only [Char.ofNat_toNat, List.cons.injEq, true_and]
        have hdrop : List.drop (b :: bs).length (b :: (bs ++ utf8Chars cs)) = utf8Chars cs := by
          rw [← List.cons_append, List.drop_left]
        rw [hdrop]
        apply ih
        simp only [List.length_cons, List.length_append] at hf
        omega

/-- A Go string that holds the UTF-8 encoding of a text denotes that text. -/
theorem toValidText_utf8 (s : String) : toValidText (utf8 s) = s := by
  unfold toValidText utf8
  rw [runesAux_utf8Chars s.data _ (le_refl _)]

/-! ## Lemmas on the decoder -/

/-- Decoding an array of decodable items into an empty slice gives the decoded
items and records nothing. -/
theorem decodeElems_fresh {α : Type} (c : ItemCodec α) (xs : List Json)
    (saved : Option GoError) (h : ItemsDecode c xs) :
    decodeElems c xs [] saved = (decodedItems c xs, saved, none) := by
  induction xs with
  | nil => rfl
  | cons j js ih =>
    have hj : (c.decode j c.zero).2 = none := h j (List.mem_cons_self _ _)
    have hjs : ItemsDecode c js := fun x hx => h x (List.mem_cons_of_mem _ hx)
    cases hd : c.decode j c.zero with
    | mk a f =>
      rw [hd] at hj
      simp only at hj
      subst hj
      simp [decodeElems, hd, ih hjs, decodedItems]

theorem fieldOf_href : fieldOf "href" = some .href := by decide
theorem fieldOf_limit : fieldOf "limit" = some .limit := by decide
theorem fieldOf_offset : fieldOf "offset" = some .offset := by decide
theorem fieldOf_total : fieldOf "total" = some .total := by decide
theorem fieldOf_next : fieldOf "next" = some .next := by decide
theorem fieldOf_previous : fieldOf "previous" = some .previous := by decide
theorem fieldOf_items : fieldOf "items" = some .items := by decide

theorem keys_cons (k : String) (v : Json) (rest : List (String × Json)) :
    keys ((k, v) :: rest) = k :: keys rest := rfl

/-- An integer literal holding a Go `int` is stored as that `int`. -/
theorem storeInt_val (f : Field) (n : GoInt) (cur : GoInt) (saved : Option GoError) :
    storeInt f (.int n.val) cur saved = (n, saved) := by
  simp [storeInt, n.property.1, n.property.2]

/-- Decoding members that are among the seven of a paging object, with no key
repeated, into a page with a nil slice: each field whose key occurs holds the
value of the paging object, each other field is untouched, and there is no error.
A `null` link leaves the link field untouched. -/
theorem decodeObject_members {α : Type} (c : ItemCodec α) (w : Paging)
    (hit : ItemsDecode c w.items) :
    ∀ (kvs : List (String × Json)) (p : Page α),
      (keys kvs).Nodup → (∀ kv ∈ kvs, kv ∈ w.members) →
      ("items" ∈ keys kvs → p.Items = none) →
      decodeObject c kvs p none =
        { page :=
            { Endpoint := if "href" ∈ keys kvs then utf8 w.href else p.Endpoint,
              Limit := if "limit" ∈ keys kvs then w.limit else p.Limit,
              Offset := if "offset" ∈ keys kvs then w.offset else p.Offset,
              Total := if "total" ∈ keys kvs then w.total else p.Total,
              Next := if "next" ∈ keys kvs then (w.next.elim p.Next utf8) else p.Next,
              Previous :=
                if "previous" ∈ keys kvs then (w.previous.elim p.Previous utf8)
                else p.Previous,
              Items := if "items" ∈ keys kvs then some (decodedItems c w.items) else p.Items },
          saved := none, abort := none } := by
  intro kvs
  induction kvs with
  | nil => intro p _ _ _; simp [decodeObject, keys]
  | cons kv rest ih =>
    intro p hnd hmem hnil
    have hkv : kv ∈ w.members := hmem kv (List.mem_cons_self _ _)
    have hrest : ∀ x ∈ rest, x ∈ w.members := fun x hx => hmem x (List.mem_cons_of_mem _ hx)
    have hnd' : (keys rest).Nodup := (List.nodup_cons.mp hnd).2
    have hnot : kv.1 ∉ keys rest := (List.nodup_cons.mp hnd).1
    have hi : kv.1 ≠ "items" → "items" ∈ keys rest → p.Items = none := fun _ hx =>
      hnil (List.mem_cons_of_mem _ hx)
    simp only [Paging.members, List.mem_cons, List.mem_singleton, List.not_mem_nil,
      or_false] at hkv
    rcases hkv with h | h | h | h | h | h | h <;> subst h
    · simp only [decodeObject, fieldOf_href, store, storeString]
      refine (ih _ hnd' hrest (fun hx => ?_)).trans ?_
      · exact hi (by simp) hx
      simp only [ne_eq] at hnot
      simp [keys_cons, hnot]
    · simp only [decodeObject, fieldOf_limit, store, storeInt_val]
      refine (ih _ hnd' hrest (fun hx => ?_)).trans ?_
      · exact hi (by simp) hx
      simp only [ne_eq] at hnot
      simp [keys_cons, hnot]
    · simp only [decodeObject, fieldOf_offset, store, storeInt_val]
      refine (ih _ hnd' hrest (fun hx => ?_)).trans ?_
      · exact hi (by simp) hx
      simp only [ne_eq] at hnot
      simp [keys_cons, hnot]
    · simp only [decodeObject, fieldOf_total, store, storeInt_val]
      refine (ih _ hnd' hrest (fun hx => ?_)).trans ?_
      · exact hi (by simp) hx
      simp only [ne_eq] at hnot
      simp [keys_cons, hnot]
    · simp only [decodeObject, fieldOf_next, store]
      simp only [ne_eq] at hnot
      cases hn : w.next <;> simp only [linkJson, storeString]
      · refine (ih _ hnd' hrest (fun hx => ?_)).trans ?_
        · exact hi (by simp) hx
        simp [keys_cons, hnot, hn]
      · refine (ih _ hnd' hrest (fun hx => ?_)).trans ?_
        · exact hi (by simp) hx
        simp [keys_cons, hnot, hn]
    · simp only [decodeObject, fieldOf_previous, store]
      simp only [ne_eq] at hnot
      cases hn : w.previous <;> simp only [linkJson, storeString]
      · refine (ih _ hnd' hrest (fun hx => ?_)).trans ?_
        · exact hi (by simp) hx
        simp [keys_cons, hnot, hn]
      · refine (ih _ hnd' hrest (fun hx => ?_)).trans ?_
        · exact hi (by simp) hx
        simp [keys_cons, hnot, hn]
    · have hp : p.Items = none := hnil (List.mem_cons_self _ _)
      simp only [decodeObject, fieldOf_items, store, storeItems, hp, Option.getD_none,
        decodeElems_fresh c w.items none hit]
      refine (ih _ hnd' hrest (fun hx => absurd hx hnot)).trans ?_
      simp only [ne_eq] at hnot
      simp [keys_cons, hnot, hp]

/-! ## Decoding paging objects -/

/-- The seven keys of a paging object are distinct. -/
theorem keys_members_nodup (w : Paging) : (keys w.members).Nodup := by
  simp [keys, Paging.members]

/-- Members whose keys select no field do not affect the decoding of an object. -/
theorem decodeObject_skip {α : Type} (c : ItemCodec α) :
    ∀ (kvs : List (String × Json)) (p : Page α) (saved : Option GoError),
      decodeObject c kvs p saved
        = decodeObject c (kvs.filter (fun kv => (fieldOf kv.1).isSome)) p saved := by
  intro kvs
  induction kvs with
  | nil => intro p saved; rfl
  | cons kv rest ih =>
    intro p saved
    obtain ⟨k, v⟩ := kv
    cases hf : fieldOf k with
    | none => simp [decodeObject, hf, List.filter, ih]
    | some f =>
      simp only [decodeObject, hf, List.filter, Option.isSome_some]
      cases (store c f v p saved).abort with
      | none => simp [ih]
      | some e => simp

/-- Decoding the seven members of a paging object, in any order, into an empty page. -/
theorem unmarshal_members {α : Type} (c : ItemCodec α) (w : Paging)
    (kvs : List (String × Json)) (hperm : kvs.Perm w.members) (hit : ItemsDecode c w.items) :
    unmarshal c (.obj kvs) emptyPage =
      ({ Endpoint := utf8 w.href, Limit := w.limit, Offset := w.offset, Total := w.total,
         Next := linkText w.next, Previous := linkText w.previous,
         Items := some (decodedItems c w.items) }, none) := by
  have hk : (keys kvs).Perm (keys w.members) := hperm.map _
  have hnd : (keys kvs).Nodup := hk.nodup_iff.mpr (keys_members_nodup w)
  have hmem : ∀ kv ∈ kvs, kv ∈ w.members := fun kv h => hperm.mem_iff.mp h
  have hin : ∀ k, k ∈ keys w.members → k ∈ keys kvs := fun k h => hk.mem_iff.mpr h
  have h := decodeObject_members c w hit kvs emptyPage hnd hmem (fun _ => rfl)
  simp only [unmarshal, h]
  have e1 : "href" ∈ keys kvs := hin _ (by simp [keys, Paging.members])
  have e2 : "limit" ∈ keys kvs := hin _ (by simp [keys, Paging.members])
  have e3 : "offset" ∈ keys kvs := hin _ (by simp [keys, Paging.members])
  have e4 : "total" ∈ keys kvs := hin _ (by simp [keys, Paging.members])
  have e5 : "next" ∈ keys kvs := hin _ (by simp [keys, Paging.members])
  have e6 : "previous" ∈ keys kvs := hin _ (by simp [keys, Paging.members])
  have e7 : "items" ∈ keys kvs := hin _ (by simp [keys, Paging.members])
  simp only [e1, e2, e3, e4, e5, e6, e7, if_true]
  cases w.next <;> cases w.previous <;> simp [linkText, emptyPage]

/-- C1: for every well-formed paging object (the seven keys `href`, `limit`, `offset`,
`total`, `next`, `previous`, `items`, each once and in any order; `href` a string,
the three numbers integers of Go's `int`, each link a string or `null`, `items` an
array whose elements each decode into the item type; nothing relating `total`,
`offset`, `limit` and the number of items) and each of the nine page types,
decoding into an empty page succeeds and gives `Endpoint = href`, `Limit = limit`,
`Offset = offset`, `Total = total`, `Next = next`, `Previous = previous` (empty for
`null`) and the item field equal to the decoded items, as many as the array has
and in its order. -/
theorem decode_wellformed_page (T : ItemTypes) (v : PageVariant)
    (c : ItemCodec (v.Item T)) (w : Paging) (kvs : List (String × Json))
    (hperm : kvs.Perm w.members) (hit : ItemsDecode c w.items) :
    jsonDecode c (.value (.obj kvs)) (emptyPage : PageOf T v) =
      ({ Endpoint := utf8 w.href, Limit := w.limit, Offset := w.offset, Total := w.total,
         Next := linkText w.next, Previous := linkText w.previous,
         Items := some (decodedItems c w.items) }, none) ∧
    (decodedItems c w.items).length = w.items.length ∧
    ∀ i : Nat, (decodedItems c w.items)[i]? =
      (w.items[i]?).map (fun j => (c.decode j c.zero).1) := by
  refine ⟨unmarshal_members c w kvs hperm hit, by simp [decodedItems], ?_⟩
  intro i
  simp [decodedItems]

/-- The response of the example scenario holds the seven members of its paging
object, in another order. -/
theorem artistsResponse_perm : artistsResponse.Perm artistsPaging.members := by
  unfold artistsResponse artistsPaging Paging.members linkJson
  refine List.Perm.cons _ ?_
  refine (@List.perm_append_comm _ [_] [_, _, _, _, _]).trans ?_
  refine List.Perm.cons _ ?_
  refine (List.Perm.swap _ _ _).trans (List.Perm.cons _ ?_)
  refine (List.Perm.cons _ (List.Perm.swap _ _ _)).trans ?_
  exact List.Perm.swap _ _ _

/-- The example scenario: the response of two artists decodes into a `FullArtistPage`
with `Limit = 2`, `Offset = 0`, `Total = 5`, the `next` link, an empty `Previous` and
the two artists in the order of the response. -/
theorem decode_wellformed_page_witness :
    artistsResponse.Perm artistsPaging.members ∧
    ItemsDecode rawItem artistsPaging.items ∧
    jsonDecode rawItem (.value (.obj artistsResponse))
        (emptyPage : PageOf rawTypes .FullArtistPage) =
      ({ Endpoint := utf8 "https://api.example/v1/artists?limit=2&offset:0",
         Limit := ⟨2, by decide⟩, Offset := ⟨0, by decide⟩, Total := ⟨5, by decide⟩,
         Next := utf8 "https://api.example/v1/artists?limit=2&offset=2", Previous := [],
         Items := some [.obj [("name", .str "artist1")], .obj [("name", .str "artist2")]] },
       none) :=
  ⟨artistsResponse_perm, fun _ _ => rfl,
    (decode_wellformed_page rawTypes .FullArtistPage rawItem artistsPaging artistsResponse
      artistsResponse_perm (fun _ _ => rfl)).1⟩

/-- The members of a paging object without links are members of the paging object
whose links are both `null`. -/
theorem membersNoLinks_sub (w : Paging) (a b : Bool) :
    ∀ kv ∈ w.membersNoLinks a b,
      kv ∈ ({ w with next := none, previous := none } : Paging).members := by
  intro kv h
  cases a <;> cases b <;>
    simp only [Paging.membersNoLinks, Paging.members, linkJson, List.mem_cons, List.mem_append,
      List.mem_singleton, List.not_mem_nil, or_false, if_true, if_false, Bool.false_eq_true]
      at h ⊢ <;>
    tauto

/-- The keys of a paging object without links are distinct. -/
theorem keys_membersNoLinks_nodup (w : Paging) (a b : Bool) :
    (keys (w.membersNoLinks a b)).Nodup := by
  cases a <;> cases b <;> simp [keys, Paging.membersNoLinks]

/-- C4: for every paging object in which `next` and `previous` are each left out or
`null`, the other five members being well-formed and the members in any order,
decoding into an empty page of any of the nine page types returns no error and
gives `Next = ""` and `Previous = ""`. -/
theorem decode_links_absent_or_null (T : ItemTypes) (v : PageVariant)
    (c : ItemCodec (v.Item T)) (w : Paging) (nextGiven previousGiven : Bool)
    (kvs : List (String × Json))
    (hperm : kvs.Perm (w.membersNoLinks nextGiven previousGiven))
    (hit : ItemsDecode c w.items) :
    (jsonDecode c (.value (.obj kvs)) (emptyPage : PageOf T v)).2 = none ∧
    (jsonDecode c (.value (.obj kvs)) (emptyPage : PageOf T v)).1.Next = [] ∧
    (jsonDecode c (.value (.obj kvs)) (emptyPage : PageOf T v)).1.Previous = [] := by
  have hk : (keys kvs).Perm (keys (w.membersNoLinks nextGiven previousGiven)) := hperm.map _
  have hnd : (keys kvs).Nodup :=
    hk.nodup_iff.mpr (keys_membersNoLinks_nodup w nextGiven previousGiven)
  have hmem : ∀ kv ∈ kvs, kv ∈ ({ w with next := none, previous := none } : Paging).members :=
    fun kv h => membersNoLinks_sub w _ _ kv (hperm.mem_iff.mp h)
  have h := decodeObject_members c { w with next := none, previous := none } hit kvs
    emptyPage hnd hmem (fun _ => rfl)
  simp only [jsonDecode, unmarshal, h]
  simp [emptyPage]

/-- The members of `artistsNoLinks` are those of a paging object without `next` and
with a null `previous`, in another order. -/
theorem artistsNoLinks_perm :
    artistsNoLinks.Perm (artistsPaging.membersNoLinks false true) := by
  unfold artistsNoLinks artistsPaging Paging.membersNoLinks
  exact @List.perm_append_comm _ [_] [_, _, _, _, _]

/-- A paging object without `next` and with a null `previous` decodes into a
`CategoryPage` without error and with both links empty. -/
theorem decode_links_absent_or_null_witness :
    artistsNoLinks.Perm (artistsPaging.membersNoLinks false true) ∧
    ItemsDecode rawItem artistsPaging.items ∧
    (jsonDecode rawItem (.value (.obj artistsNoLinks))
      (emptyPage : PageOf rawTypes .CategoryPage)).2 = none ∧
    (jsonDecode rawItem (.value (.obj artistsNoLinks))
      (emptyPage : PageOf rawTypes .CategoryPage)).1.Next = [] ∧
    (jsonDecode rawItem (.value (.obj artistsNoLinks))
      (emptyPage : PageOf rawTypes .CategoryPage)).1.Previous = [] :=
  ⟨artistsNoLinks_perm, fun _ _ => rfl,
    decode_links_absent_or_null rawTypes .CategoryPage rawItem artistsPaging false true
      artistsNoLinks artistsNoLinks_perm (fun _ _ => rfl)⟩

/-- C9, the case the claim gets wrong: the key `TOTAL` is none of the seven names,
yet a member with that key added to a well-formed paging object is not ignored:
it is stored into `Total`. -/
theorem decode_key_other_case_not_ignored :
    isPagingKey "TOTAL" = false ∧
    (jsonDecode rawItem (.value (.obj artistsPaging.members))
      (emptyPage : PageOf rawTypes .FullArtistPage)).1.Total.val = 5 ∧
    (jsonDecode rawItem (.value (.obj (artistsPaging.members ++ [("TOTAL", .int 7)])))
      (emptyPage : PageOf rawTypes .FullArtistPage)).1.Total.val = 7 := by
  decide

/-- C9 as amended: for every well-formed paging object `J` and every object `J2`
obtained from `J` by adding, anywhere, members whose keys select no field of the
page (no JSON name equals the key, even up to the case of letters), decoding `J2`
into an empty page of any of the nine page types succeeds and gives the same
page as decoding `J`. -/
theorem decode_ignores_unmatched_keys (T : ItemTypes) (v : PageVariant)
    (c : ItemCodec (v.Item T)) (w : Paging) (kvs kvs2 : List (String × Json))
    (hperm : kvs.Perm w.members) (hit : ItemsDecode c w.items)
    (hadd : kvs2.filter (fun kv => (fieldOf kv.1).isSome) = kvs) :
    (jsonDecode c (.value (.obj kvs2)) (emptyPage : PageOf T v)).2 = none ∧
    jsonDecode c (.value (.obj kvs2)) (emptyPage : PageOf T v)
      = jsonDecode c (.value (.obj kvs)) (emptyPage : PageOf T v) := by
  have hsame : jsonDecode c (.value (.obj kvs2)) (emptyPage : PageOf T v)
      = jsonDecode c (.value (.obj kvs)) (emptyPage : PageOf T v) := by
    simp only [jsonDecode, unmarshal]
    rw [decodeObject_skip c kvs2, hadd]
  refine ⟨?_, hsame⟩
  rw [hsame]
  simp only [jsonDecode]
  rw [unmarshal_members c w kvs hperm hit]

/-- The example scenario with the members `cursor` and `market` added decodes to the
same page as without them. -/
theorem decode_ignores_unmatched_keys_witness :
    artistsPaging.members.Perm artistsPaging.members ∧
    ItemsDecode rawItem artistsPaging.items ∧
    artistsExtra.filter (fun kv => (fieldOf kv.1).isSome) = artistsPaging.members ∧
    (jsonDecode rawItem (.value (.obj artistsExtra))
      (emptyPage : PageOf rawTypes .SavedTrackPage)).2 = none ∧
    jsonDecode rawItem (.value (.obj artistsExtra))
      (emptyPage : PageOf rawTypes .SavedTrackPage)
      = jsonDecode rawItem (.value (.obj artistsPaging.members))
        (emptyPage : PageOf rawTypes .SavedTrackPage) :=
  ⟨List.Perm.refl _, fun _ _ => rfl, rfl,
    decode_ignores_unmatched_keys rawTypes .SavedTrackPage rawItem artistsPaging
      artistsPaging.members artistsExtra (List.Perm.refl _) (fun _ _ => rfl) rfl⟩

/-! ## Serialising and decoding back -/

/-- C6, the case the claim gets wrong: the page whose `Next` is the byte 0xFF
serialises and decodes back without error, but `Next` comes back as the three
bytes of U+FFFD. -/
theorem roundtrip_invalid_utf8 :
    badPage.Next = [0xFF] ∧
    (jsonDecode rawItem (.value (marshal rawItem badPage)) emptyPage).2 = none ∧
    (jsonDecode rawItem (.value (marshal rawItem badPage)) emptyPage).1.Next
      = [0xEF, 0xBF, 0xBD] ∧
    (jsonDecode rawItem (.value (marshal rawItem badPage)) emptyPage).1.Next ≠ badPage.Next := by
  decide

/-- Items that decode back from their serialisation do so as a list. -/
theorem decodedItems_encode {α : Type} (c : ItemCodec α) (xs : List α)
    (h : ∀ a ∈ xs, c.decode (c.encode a) c.zero = (a, none)) :
    ItemsDecode c (xs.map c.encode) ∧ decodedItems c (xs.map c.encode) = xs := by
  constructor
  · intro j hj
    obtain ⟨a, ha, rfl⟩ := List.mem_map.mp hj
    rw [h a ha]
  · induction xs with
    | nil => rfl
    | cons a as ih =>
      have ha := h a (List.mem_cons_self _ _)
      have has := ih (fun x hx => h x (List.mem_cons_of_mem _ hx))
      simp only [decodedItems, List.map_cons, List.cons.injEq] at has ⊢
      exact ⟨by rw [ha], has⟩

/-- C6 as amended: for every page value of any of the nine page types whose strings
`Endpoint`, `Next` and `Previous` are valid UTF-8 (the encoding of a text) and
whose items each decode back from their own serialisation, serialising the page
and decoding the result into an empty page of the same type succeeds and gives a
page equal to the original, field by field and item by item. -/
theorem roundtrip_valid_utf8 (T : ItemTypes) (v : PageVariant) (c : ItemCodec (v.Item T))
    (p : PageOf T v) (e n q : String)
    (hE : p.Endpoint = utf8 e) (hN : p.Next = utf8 n) (hP : p.Previous = utf8 q)
    (hI : ∀ a ∈ p.Items.getD [], c.decode (c.encode a) c.zero = (a, none)) :
    jsonDecode c (.value (marshal c p)) (emptyPage : PageOf T v) = (p, none) := by
  obtain ⟨⟨ep, li, off, tot, nx, pv⟩, its⟩ := p
  simp only at hE hN hP hI
  subst hE hN hP
  cases its with
  | none =>
    simp [jsonDecode, marshal, unmarshal, decodeObject, fieldOf_href, fieldOf_limit,
      fieldOf_offset, fieldOf_total, fieldOf_next, fieldOf_previous, fieldOf_items, store,
      storeString, storeInt_val, storeItems, toValidText_utf8, emptyPage]
  | some xs =>
    have hx := decodedItems_encode c xs (by simpa using hI)
    simp [jsonDecode, marshal, unmarshal, decodeObject, fieldOf_href, fieldOf_limit,
      fieldOf_offset, fieldOf_total, fieldOf_next, fieldOf_previous, fieldOf_items, store,
      storeString, storeInt_val, storeItems, toValidText_utf8, emptyPage,
      decodeElems_fresh c _ none hx.1, hx.2]

/-- The sample page of two artists comes back unchanged. -/
theorem roundtrip_valid_utf8_witness :
    samplePage.Endpoint = utf8 "https://api.example/v1/artists?limit=2&offset=0" ∧
    samplePage.Next = utf8 "https://api.example/v1/artists?limit=2&offset=2" ∧
    samplePage.Previous = utf8 "" ∧
    (∀ a ∈ samplePage.Items.getD [], rawItem.decode (rawItem.encode a) rawItem.zero = (a, none)) ∧
    jsonDecode rawItem (.value (marshal rawItem samplePage))
      (emptyPage : PageOf rawTypes .FullArtistPage) = (samplePage, none) :=
  ⟨rfl, rfl, rfl, fun _ _ => rfl,
    roundtrip_valid_utf8 rawTypes .FullArtistPage rawItem samplePage _ _ _ rfl rfl rfl
      (fun _ _ => rfl)⟩

/-! ## The fetch operation -/

/-- The calls made since a log, when the log was extended. -/
theorem during_append (log new : List Event) : during log (log ++ new) = new := by
  simp [during]

/-- C2: if the transport's `Get` returns an error `e`, then `getPage` returns exactly
`e`, the only call made is that `Get` (the decoder reads no body, nothing is
closed), and the destination is left unchanged. -/
theorem getPage_transport_error {α : Type} (x : Exchange) (codec : ItemCodec α)
    (url : String) (page : Page α) (log : List Event) (e : GoError)
    (h : x log url = .error e) :
    (getPage (recorder x) codec url page log).err = some e ∧
    (∀ id, Event.read id ∉ during log (getPage (recorder x) codec url page log).world) ∧
    (getPage (recorder x) codec url page log).world = log ++ [.get url false] ∧
    (getPage (recorder x) codec url page log).page = page := by
  simp [getPage, recorder, h, during_append]

/-- A refused connection: the transport error is returned and nothing is decoded. -/
theorem getPage_transport_error_witness :
    refuse (.transport "connection refused") [] "https://api.example/v1/artists"
      = .error (.transport "connection refused") ∧
    ((getPage (recorder (refuse (.transport "connection refused"))) rawItem
        "https://api.example/v1/artists" emptyPage []).err
        = some (.transport "connection refused") ∧
      (∀ id, Event.read id ∉ during [] (getPage
        (recorder (refuse (.transport "connection refused"))) rawItem
        "https://api.example/v1/artists" emptyPage []).world) ∧
      (getPage (recorder (refuse (.transport "connection refused"))) rawItem
        "https://api.example/v1/artists" emptyPage []).world
        = [] ++ [.get "https://api.example/v1/artists" false] ∧
      (getPage (recorder (refuse (.transport "connection refused"))) rawItem
        "https://api.example/v1/artists" emptyPage []).page = emptyPage) :=
  ⟨rfl, getPage_transport_error _ rawItem _ emptyPage [] _ rfl⟩

/-- C3: if the transport's `Get` returns a response, then the error `getPage` returns
is exactly the one the JSON decoder returns for that response's body and the
destination (nil when it returns nil), the destination afterwards is the one the
decoder left, and any other response with the same body, whatever its status
code and headers, gives the same result. -/
theorem getPage_result_is_decode_result {α : Type} (x : Exchange) (codec : ItemCodec α)
    (url : String) (page : Page α) (log : List Event) (resp : Reply)
    (h : x log url = .ok resp) :
    (getPage (recorder x) codec url page log).err = (jsonDecode codec resp.Body page).2 ∧
    (getPage (recorder x) codec url page log).page = (jsonDecode codec resp.Body page).1 ∧
    ∀ (x2 : Exchange) (log2 : List Event) (url2 : String) (resp2 : Reply),
      x2 log2 url2 = .ok resp2 → resp2.Body = resp.Body →
      (getPage (recorder x2) codec url2 page log2).err
        = (getPage (recorder x) codec url page log).err ∧
      (getPage (recorder x2) codec url2 page log2).page
        = (getPage (recorder x) codec url page log).page := by
  refine ⟨?_, ?_, ?_⟩
  · simp [getPage, decodeFrom, recorder, recordedBody, h]
  · simp [getPage, decodeFrom, recorder, recordedBody, h]
  · intro x2 log2 url2 resp2 h2 hb
    simp [getPage, decodeFrom, recorder, recordedBody, h, h2, hb]

/-- A served body: the error of `getPage` is the error of the decoder. -/
theorem getPage_result_is_decode_result_witness :
    serve partialBody [] "u" = .ok { StatusCode := 200, Header := [], Body := partialBody } ∧
    (getPage (recorder (serve partialBody)) rawItem "u" emptyPage []).err
      = (jsonDecode rawItem partialBody emptyPage).2 :=
  ⟨rfl, (getPage_result_is_decode_result (serve partialBody) rawItem "u" emptyPage []
    { StatusCode := 200, Header := [], Body := partialBody } rfl).1⟩

/-- C7: in every call of `getPage`, whatever the network does and whatever was
recorded before, the calls the collaborators receive are: when `Get` returned a
response, that `Get`, then the decoder reading the body it opened, then `Close` on
that same body, and nothing else, so the body is closed exactly once, after the
decode, whether the decode failed or not; when `Get` failed, that `Get` alone, so
no body was opened and none is closed.  Either way as many bodies are closed
during the call as were opened. -/
theorem getPage_closes_body {α : Type} (x : Exchange) (codec : ItemCodec α)
    (url : String) (page : Page α) (log : List Event) :
    closed (during log (getPage (recorder x) codec url page log).world)
      = opened (during log (getPage (recorder x) codec url page log).world) ∧
    (match x log url with
      | .ok _ =>
        (getPage (recorder x) codec url page log).world
          = log ++ [.get url true, .read log.length, .close log.length] ∧
        opened (during log (getPage (recorder x) codec url page log).world) = 1 ∧
        closed (during log (getPage (recorder x) codec url page log).world) = 1
      | .error _ =>
        (getPage (recorder x) codec url page log).world = log ++ [.get url false] ∧
        opened (during log (getPage (recorder x) codec url page log).world) = 0 ∧
        closed (during log (getPage (recorder x) codec url page log).world) = 0) := by
  cases h : x log url with
  | error e =>
    simp [getPage, recorder, h, during_append, closed, opened, Event.closes, Event.opens]
  | ok r =>
    simp [getPage, decodeFrom, recorder, recordedBody, h, during_append, closed, opened,
      Event.closes, Event.opens]

/-- C8: every call `getPage(url, page)` makes exactly one `Get` call on the transport,
with the URL it was given, whatever the network and the decoder answer and
whatever was recorded before: the `Get` calls the transport has received after
the call are those it had received before, and then one for `url`. -/
theorem getPage_single_get {α : Type} (x : Exchange) (codec : ItemCodec α)
    (url : String) (page : Page α) (log : List Event) :
    (getPage (recorder x) codec url page log).world.filterMap Event.getURL
      = log.filterMap Event.getURL ++ [url] ∧
    (during log (getPage (recorder x) codec url page log).world).filterMap Event.getURL
      = [url] := by
  cases h : x log url with
  | error e =>
    simp [getPage, recorder, h, during_append, Event.getURL]
  | ok r =>
    simp [getPage, decodeFrom, recorder, recordedBody, h, during_append, Event.getURL]

/-- C10: `getPage` does not restore the destination when the decode fails: for the
body `{"total":5,"limit":"x"}` and an empty destination of any page type it returns
the decoder's type error for `limit`, and the destination then has `Total = 5`, so
it differs from the empty page it was before the call. -/
theorem getPage_not_atomic (T : ItemTypes) (v : PageVariant) (codec : ItemCodec (v.Item T))
    (url : String) (log : List Event) :
    (getPage (recorder (serve partialBody)) codec url (emptyPage : PageOf T v) log).err
      = some (.unmarshalType "string" "limit") ∧
    (getPage (recorder (serve partialBody)) codec url (emptyPage : PageOf T v) log).page.Total.val
      = 5 ∧
    (getPage (recorder (serve partialBody)) codec url (emptyPage : PageOf T v) log).page
      ≠ (emptyPage : PageOf T v) := by
  have h : (getPage (recorder (serve partialBody)) codec url
      (emptyPage : PageOf T v) log).page.Total.val = 5 := rfl
  refine ⟨rfl, h, ?_⟩
  intro heq
  rw [heq] at h
  simp [emptyPage, zeroInt] at h

/-- C5, the case the claim gets wrong: the body `null` is not a JSON object, and
`getPage` returns nil for it, storing nothing. -/
theorem getPage_null_body_no_error :
    (Body.value .null).isObject = false ∧
    (getPage (recorder (serve (.value .null))) rawItem "https://api.example/v1/artists"
      (emptyPage : PageOf rawTypes .FullArtistPage) []).err = none ∧
    (getPage (recorder (serve (.value .null))) rawItem "https://api.example/v1/artists"
      (emptyPage : PageOf rawTypes .FullArtistPage) []).page = emptyPage :=
  ⟨rfl, rfl, rfl⟩

/-- C5 as amended: for every response whose body holds no readable JSON value at all
(empty, malformed or truncated text) or whose first JSON value is a bare array, a
boolean, a number or a string, and for every destination, `getPage` returns a
non-nil error and leaves the destination unchanged; `null` is the one value
that is not an object and is not rejected. -/
theorem getPage_non_object_body_error {α : Type} (x : Exchange) (codec : ItemCodec α)
    (url : String) (page : Page α) (log : List Event) (resp : Reply)
    (h : x log url = .ok resp)
    (hobj : resp.Body.isObject = false) (hnull : resp.Body.isNull = false) :
    (getPage (recorder x) codec url page log).err ≠ none ∧
    (getPage (recorder x) codec url page log).page = page := by
  rcases resp with ⟨st, hd, b⟩
  cases b with
  | malformed e => simp [getPage, decodeFrom, recorder, recordedBody, h, jsonDecode]
  | value j =>
    cases j <;>
      simp_all [getPage, decodeFrom, recorder, recordedBody, jsonDecode, unmarshal,
        Body.isObject, Body.isNull]

/-- The body `[]`: a bare array is rejected and the destination is untouched. -/
theorem getPage_non_object_body_error_witness :
    serve (.value (.arr [])) [] "u"
      = .ok { StatusCode := 200, Header := [], Body := .value (.arr []) } ∧
    (Body.value (.arr [])).isObject = false ∧ (Body.value (.arr [])).isNull = false ∧
    (getPage (recorder (serve (.value (.arr [])))) rawItem "u" emptyPage []).err ≠ none ∧
    (getPage (recorder (serve (.value (.arr [])))) rawItem "u" emptyPage []).page = emptyPage :=
  ⟨rfl, rfl, rfl, getPage_non_object_body_error (serve (.value (.arr []))) rawItem "u"
    emptyPage [] { StatusCode := 200, Header := [], Body := .value (.arr []) } rfl rfl rfl⟩

end Spotify
